import Mathlib

/-!
Verification development for the TenderVista tender analyzer
(`tender_analyzer.py`).  Strings are modelled as `List Char`; the
program's helpers (`str.splitlines`, `str.strip`, the four compiled
regular expressions, `first_match`, `normalize_date`,
`parse_tender_text`, `extract_text_from_pdf`, `main`) are translated
into executable Lean functions below.  External collaborators (the PDF
library, the OCR engine, the date-parsing library, stdout/stderr) are
modelled as explicit parameters, following the repository's own
capability flags.  Unicode-dependent Python predicates (`str.isspace`,
`str.isupper`, case folding under `re.IGNORECASE`) are modelled on the
character ranges the program's data actually uses (the full
`Py_UNICODE_ISSPACE` set for whitespace, ASCII for case).
-/

namespace TenderVista

/-- Whitespace as recognised by Python's `str.strip` and by `\s` in the
`re` module for `str` patterns (the `Py_UNICODE_ISSPACE` set). -/
def isPySpace (c : Char) : Bool :=
  c == ' ' || c == '\t' || c == '\n' || c == '\r' || c == '\u000B' || c == '\u000C' ||
  c == '\u001C' || c == '\u001D' || c == '\u001E' || c == '\u001F' || c == '\u0085' ||
  c == '\u00A0' || c == '\u1680' || ('\u2000' ≤ c && c ≤ '\u200A') ||
  c == '\u2028' || c == '\u2029' || c == '\u202F' || c == '\u205F' || c == '\u3000'

/-- Line boundaries recognised by Python's `str.splitlines`
(besides the two-character boundary `"\r\n"`, handled separately). -/
def isLineBreak (c : Char) : Bool :=
  c == '\n' || c == '\r' || c == '\u000B' || c == '\u000C' ||
  c == '\u001C' || c == '\u001D' || c == '\u001E' ||
  c == '\u0085' || c == '\u2028' || c == '\u2029'

/-- Python `str.strip()`: remove leading and trailing whitespace. -/
def pyStrip (s : List Char) : List Char :=
  ((s.dropWhile isPySpace).reverse.dropWhile isPySpace).reverse

/-- Worker for `splitlines`: `acc` is the current line, reversed. -/
def splitlinesGo : List Char → List Char → List (List Char)
  | [], acc => [acc.reverse]
  | '\r' :: '\n' :: rest, acc =>
      acc.reverse :: (if rest.isEmpty then [] else splitlinesGo rest [])
  | c :: rest, acc =>
      if isLineBreak c then
        acc.reverse :: (if rest.isEmpty then [] else splitlinesGo rest [])
      else splitlinesGo rest (c :: acc)

/-- Python `str.splitlines()` (keepends = False). -/
def splitlines (s : List Char) : List (List Char) :=
  if s.isEmpty then [] else splitlinesGo s []

/-- Match a lower-case literal case-insensitively (the effect of
`re.IGNORECASE` on the ASCII label words of the program's patterns),
returning the rest of the input on success. -/
def dropCI : List Char → List Char → Option (List Char)
  | [], s => some s
  | _ :: _, [] => none
  | p :: ps, c :: cs => if c.toLower == p then dropCI ps cs else none

/-- `\s+`: one-or-more whitespace, greedy.  The maximal run is taken;
in every pattern of the program `\s+` is followed by a letter literal,
so giving back characters (all of them whitespace) can never help and
greedy backtracking is vacuous. -/
def wsPlus : List Char → Option (List Char)
  | [] => none
  | c :: cs => if isPySpace c then some (cs.dropWhile isPySpace) else none

/-- The separator class `[:\-\s]` of all four patterns. -/
def isSepChar (c : Char) : Bool :=
  c == ':' || c == '-' || isPySpace c

/-- The class `[A-Z0-9\-_/]` of `RE_REF` under `re.IGNORECASE`
(lower-case letters match as well). -/
def isRefChar (c : Char) : Bool :=
  ('A' ≤ c && c ≤ 'Z') || ('a' ≤ c && c ≤ 'z') || ('0' ≤ c && c ≤ '9') ||
  c == '-' || c == '_' || c == '/'

/-- `(.+)$` in multiline mode: `.` excludes `'\n'`; the greedy maximal
run always ends right before `'\n'` or at the end of input, where `$`
holds, so the capture is exactly the maximal non-newline run (it must
be non-empty). -/
def capLine (s : List Char) : Option (List Char) :=
  let a := s.takeWhile (fun c => !(c == '\n'))
  if a.isEmpty then none else some a

/-- `([A-Z0-9\-_/]+)` at the end of `RE_REF`: the greedy maximal run of
class characters, which must be non-empty.  Nothing follows the group
in the pattern, so no backtracking inside the group is possible. -/
def capRef (s : List Char) : Option (List Char) :=
  let a := s.takeWhile isRefChar
  if a.isEmpty then none else some a

/-- `[:\-\s]{0,k}` followed by the capture `cap`, with the greedy
backtracking order of the Python engine: consume another separator
first, and on failure of the remainder retry the capture with fewer
separators consumed. -/
def sepCap (cap : List Char → Option (List Char)) : Nat → List Char → Option (List Char)
  | 0, s => cap s
  | _ + 1, [] => cap []
  | k + 1, c :: cs =>
      if isSepChar c then (sepCap cap k cs) <|> cap (c :: cs) else cap (c :: cs)

/-- `^` in multiline mode: at the start of the input or right after a
`'\n'`.  `prev` is the character preceding the current position. -/
def isBol : Option Char → Bool
  | none => true
  | some c => c == '\n'

/-- Attempt of `RE_TITLE` at one position:
`(?im)^\s*(?:Tender(?:\s+Title)?|Title|Project)[:\-\s]{0,5}(.+)$`.
`\s*` is taken maximally: every alternative begins with a letter, so a
shorter run (ending on a whitespace character) can never match and
greedy backtracking over `\s*` is vacuous. -/
def matchTitleAt (prev : Option Char) (s : List Char) : Option (List Char) :=
  if isBol prev then
    let t := s.dropWhile isPySpace
    (match dropCI ['t', 'e', 'n', 'd', 'e', 'r'] t with
     | some r =>
        (match wsPlus r with
         | some r2 =>
            match dropCI ['t', 'i', 't', 'l', 'e'] r2 with
            | some r3 => sepCap capLine 5 r3
            | none => none
         | none => none) <|> sepCap capLine 5 r
     | none => none) <|>
    (match dropCI ['t', 'i', 't', 'l', 'e'] t with
     | some r => sepCap capLine 5 r
     | none => none) <|>
    (match dropCI ['p', 'r', 'o', 'j', 'e', 'c', 't'] t with
     | some r => sepCap capLine 5 r
     | none => none)
  else none

/-- Attempt of `RE_REF` at one position (no anchors):
`(?im)(?:Reference|Ref|Tender\s+No\.?|Tender\s+ID)[:\-\s]{0,5}([A-Z0-9\-_/]+)`. -/
def matchRefAt (_prev : Option Char) (s : List Char) : Option (List Char) :=
  (match dropCI ['r', 'e', 'f', 'e', 'r', 'e', 'n', 'c', 'e'] s with
   | some r => sepCap capRef 5 r
   | none => none) <|>
  (match dropCI ['r', 'e', 'f'] s with
   | some r => sepCap capRef 5 r
   | none => none) <|>
  (match dropCI ['t', 'e', 'n', 'd', 'e', 'r'] s with
   | some r =>
      match wsPlus r with
      | some r2 =>
          match dropCI ['n', 'o'] r2 with
          | some r3 =>
              (match r3 with
               | '.' :: r4 => sepCap capRef 5 r4
               | _ => none) <|> sepCap capRef 5 r3
          | none => none
      | none => none
   | none => none) <|>
  (match dropCI ['t', 'e', 'n', 'd', 'e', 'r'] s with
   | some r =>
      match wsPlus r with
      | some r2 =>
          match dropCI ['i', 'd'] r2 with
          | some r3 => sepCap capRef 5 r3
          | none => none
      | none => none
   | none => none)

/-- Attempt of `RE_ORG` at one position:
`(?im)^(?:Issued\s+By|Issuing\s+Organization|Organization|Procurement\s+Entity|Issued\s+To)[:\-\s]{0,5}(.+)$`. -/
def matchOrgAt (prev : Option Char) (s : List Char) : Option (List Char) :=
  if isBol prev then
    (match dropCI ['i', 's', 's', 'u', 'e', 'd'] s with
     | some r =>
        match wsPlus r with
        | some r2 =>
            match dropCI ['b', 'y'] r2 with
            | some r3 => sepCap capLine 5 r3
            | none => none
        | none => none
     | none => none) <|>
    (match dropCI ['i', 's', 's', 'u', 'i', 'n', 'g'] s with
     | some r =>
        match wsPlus r with
        | some r2 =>
            match dropCI ['o', 'r', 'g', 'a', 'n', 'i', 'z', 'a', 't', 'i', 'o', 'n'] r2 with
            | some r3 => sepCap capLine 5 r3
            | none => none
        | none => none
     | none => none) <|>
    (match dropCI ['o', 'r', 'g', 'a', 'n', 'i', 'z', 'a', 't', 'i', 'o', 'n'] s with
     | some r => sepCap capLine 5 r
     | none => none) <|>
    (match dropCI ['p', 'r', 'o', 'c', 'u', 'r', 'e', 'm', 'e', 'n', 't'] s with
     | some r =>
        match wsPlus r with
        | some r2 =>
            match dropCI ['e', 'n', 't', 'i', 't', 'y'] r2 with
            | some r3 => sepCap capLine 5 r3
            | none => none
        | none => none
     | none => none) <|>
    (match dropCI ['i', 's', 's', 'u', 'e', 'd'] s with
     | some r =>
        match wsPlus r with
        | some r2 =>
            match dropCI ['t', 'o'] r2 with
            | some r3 => sepCap capLine 5 r3
            | none => none
        | none => none
     | none => none)
  else none

/-- Attempt of `RE_DATE` at one position (unanchored on the left):
`(?im)(?:Closing\s+Date|Deadline|Bid\s+Submission\s+Deadline|Submission\s+Deadline)[:\-\s]{0,5}(.+)$`. -/
def matchDateAt (_prev : Option Char) (s : List Char) : Option (List Char) :=
  (match dropCI ['c', 'l', 'o', 's', 'i', 'n', 'g'] s with
   | some r =>
      match wsPlus r with
      | some r2 =>
          match dropCI ['d', 'a', 't', 'e'] r2 with
          | some r3 => sepCap capLine 5 r3
          | none => none
      | none => none
   | none => none) <|>
  (match dropCI ['d', 'e', 'a', 'd', 'l', 'i', 'n', 'e'] s with
   | some r => sepCap capLine 5 r
   | none => none) <|>
  (match dropCI ['b', 'i', 'd'] s with
   | some r =>
      match wsPlus r with
      | some r2 =>
          match dropCI ['s', 'u', 'b', 'm', 'i', 's', 's', 'i', 'o', 'n'] r2 with
          | some r3 =>
              match wsPlus r3 with
              | some r4 =>
                  match dropCI ['d', 'e', 'a', 'd', 'l', 'i', 'n', 'e'] r4 with
                  | some r5 => sepCap capLine 5 r5
                  | none => none
              | none => none
          | none => none
      | none => none
   | none => none) <|>
  (match dropCI ['s', 'u', 'b', 'm', 'i', 's', 's', 'i', 'o', 'n'] s with
   | some r =>
      match wsPlus r with
      | some r2 =>
          match dropCI ['d', 'e', 'a', 'd', 'l', 'i', 'n', 'e'] r2 with
          | some r3 => sepCap capLine 5 r3
          | none => none
      | none => none
   | none => none)

/-- `re.Pattern.search`: scan the starting positions from the left and
return the capture of the first position at which the pattern matches
(`prev` is the character before the current position, for `^`). -/
def searchAt (m : Option Char → List Char → Option (List Char)) :
    Option Char → List Char → Option (List Char)
  | prev, s =>
      (m prev s) <|>
      (match s with
       | [] => none
       | c :: cs => searchAt m (some c) cs)

/-- `first_match(pattern, text)`: `m = pattern.search(text)` followed by
`m.group(1).strip()`, or `None` when there is no match. -/
def first_match (m : Option Char → List Char → Option (List Char))
    (text : List Char) : Option (List Char) :=
  (searchAt m none text).map pyStrip

/-- Python truthiness of an optional string (`None` and `""` are falsy). -/
def truthy : Option (List Char) → Bool
  | none => false
  | some s => !s.isEmpty

/-- `normalize_date`.  The date-parsing library is out of scope in the
repository (imported inside `try`); it is modelled by
`dp : Option (List Char → Option (List Char))`: `none` means `dateutil`
is unavailable, `some f` means available, with `f s = some iso` when
`dateparser.parse(s, fuzzy=True).isoformat()` returns `iso` and
`f s = none` when parsing raises. -/
def normalize_date (dp : Option (List Char → Option (List Char))) :
    Option (List Char) → Option (List Char)
  | none => none
  | some ds =>
      if ds.isEmpty then none
      else
        match dp with
        | none => some ds
        | some f =>
            match f ds with
            | some iso => some iso
            | none => some ds

/-- The secondary title heuristic of `parse_tender_text`: the first
line whose stripped form is non-blank, longer than 10 characters and
starts with an upper-case character (ASCII model of `str.isupper`);
translation of the `for l in lines` loop. -/
def fallbackTitle : List (List Char) → Option (List Char)
  | [] => none
  | l :: rest =>
      match pyStrip l with
      | [] => fallbackTitle rest
      | c :: cs =>
          if 10 < (c :: cs).length && ('A' ≤ c && c ≤ 'Z') then some (c :: cs)
          else fallbackTitle rest

/-- The `full` view built in `parse_tender_text`:
`"\n".join([l.strip() for l in lines if l.strip()])`. -/
def fullView (text : List Char) : List Char :=
  List.intercalate ['\n']
    (((splitlines text).filter (fun l => !(pyStrip l).isEmpty)).map pyStrip)

/-- `parse_tender_text`: the result dictionary is modelled as an
association list, keeping the key insertion order of the Python
`dict` literal. -/
def parse_tender_text (dp : Option (List Char → Option (List Char)))
    (text : List Char) : List (List Char × Option (List Char)) :=
  let lines := splitlines text
  let full := fullView text
  let title := first_match matchTitleAt full
  let ref := first_match matchRefAt full
  let org := first_match matchOrgAt full
  let date := first_match matchDateAt full
  let title2 :=
    if truthy title then title
    else
      match fallbackTitle lines with
      | some s => some s
      | none => title
  [("title".toList, title2), ("reference".toList, ref),
   ("organization".toList, org), ("closing_date".toList, normalize_date dp date)]

/-- Field access in the result of `parse_tender_text`. -/
def getField (r : List (List Char × Option (List Char))) (k : List Char) :
    Option (List Char) :=
  (List.lookup k r).join

/-- A PDF page as `extract_text_from_pdf` sees it.  `get_text` models
`page.get_text("text") or ""` (the `or ""` collapses a falsy return to
the empty string, so the modelled value is already a string);
`.error e` models the call raising.  `ocr` models the uncaught chain
`page.get_pixmap(dpi=dpi)` / `Image.frombytes` /
`pytesseract.image_to_string`, as a function of the dpi argument. -/
structure Page where
  get_text : Except (List Char) (List Char)
  ocr : Nat → Except (List Char) (List Char)

/-- Per-page body of the `for page_num in range(len(doc))` loop,
returning the list `pages_text`.  `ocrAvail` is `pytesseract and Image`. -/
def extractPages (ocrAvail : Bool) (force_ocr : Bool) (dpi : Nat) :
    List Page → Except (List Char) (List (List Char))
  | [] => .ok []
  | page :: rest =>
      let text : List Char :=
        if !force_ocr then
          match page.get_text with
          | .ok t => t
          | .error _ => []
        else []
      if !text.isEmpty && !(pyStrip text).isEmpty && !force_ocr then
        (extractPages ocrAvail force_ocr dpi rest).map (text :: ·)
      else
        if ocrAvail then
          match page.ocr dpi with
          | .ok ocr_text => (extractPages ocrAvail force_ocr dpi rest).map (ocr_text :: ·)
          | .error e => .error e
        else (extractPages ocrAvail force_ocr dpi rest).map ([] :: ·)

/-- `extract_text_from_pdf`.  `fitzAvail`, `pytesseractAvail` and
`imageAvail` model the optional-import flags `fitz`, `pytesseract`
and `Image`; the document is the page list that `fitz.open`/`load_page`
would yield. -/
def extract_text_from_pdf (fitzAvail pytesseractAvail imageAvail : Bool)
    (doc : List Page) (force_ocr : Bool) (dpi : Nat) :
    Except (List Char) (List Char) :=
  if !fitzAvail then
    .error (("PyMuPDF (fitz) is required. Install with pip install pymupdf.").toList)
  else
    (extractPages (pytesseractAvail && imageAvail) force_ocr dpi doc).map
      (List.intercalate ['\n'])

/-- `analyze_file`'s result dictionary. -/
structure AnalysisResult where
  path : List Char
  parsed : List (List Char × Option (List Char))
  text_snippet : List Char

/-- Observable outcome of one CLI run: the process exit status and the
lines written to stdout and stderr. -/
structure CliResult where
  exitCode : Nat
  stdout : List (List Char)
  stderr : List (List Char)
  deriving DecidableEq

/-- `f"{k}: {v}"` for one parsed field (`None` prints as `"None"`). -/
def kvLine (kv : List Char × Option (List Char)) : List Char :=
  kv.1 ++ ": ".toList ++ (match kv.2 with
                          | none => "None".toList
                          | some v => v)

/-- The `try`/`except` body of `main`, after argument parsing.
`outcome` is the result of `analyze_file` (`.error e` models any
exception escaping extraction or parsing, carrying `str(e)`), and
`render` models `json.dumps`.  On success Python's `main` returns and
the process exits with status 0; on exception it prints
`f"Error: {e}"` to stderr and calls `sys.exit(1)`. -/
def mainModel (jsonFlag : Bool) (render : AnalysisResult → List Char)
    (outcome : Except (List Char) AnalysisResult) : CliResult :=
  match outcome with
  | .ok result =>
      if jsonFlag then ⟨0, [render result], []⟩
      else ⟨0, ("Analyzed: ".toList ++ result.path) :: result.parsed.map kvLine, []⟩
  | .error e => ⟨1, [], ["Error: ".toList ++ e]⟩

/-! ### Formalisation devices used by the theorem statements -/

/-- The character preceding the current position after scanning `l`
(starting from a position preceded by `prev`). -/
def prevAfter (prev : Option Char) : List Char → Option Char
  | [] => prev
  | c :: cs => prevAfter (some c) cs

/-- `noneUpTo m prev a b = true` states that the pattern attempt `m`
fails at every position strictly inside `a` when the input continues
with `b`; it formalises "the first match of the pattern does not start
before `b`". -/
def noneUpTo (m : Option Char → List Char → Option (List Char)) :
    Option Char → List Char → List Char → Bool
  | _, [], _ => true
  | prev, c :: a, b => (m prev (c :: (a ++ b))).isNone && noneUpTo m (some c) a b

/-- "Begins with an upper-case character" (claim-side predicate of the
title fallback; ASCII model of Python's `str.isupper`). -/
def firstUpper : List Char → Bool
  | [] => false
  | c :: _ => 'A' ≤ c && c ≤ 'Z'

/-- The end-to-end sample input of the specification's test block. -/
def sampleTender : List Char :=
  (("Tender Title: Construction of New Bridge\n" ++
    "Reference: TB-2025-00123\n" ++
    "Issuing Organization: City Public Works Department\n" ++
    "Closing Date: 30 September 2025").toList)

/-! ### Helper lemmas -/

lemma refchar_not_space (c : Char) (h : isRefChar c = true) : isPySpace c = false := by
  by_contra hc
  rw [Bool.not_eq_false] at hc
  unfold isRefChar at h
  unfold isPySpace at hc
  simp only [Bool.or_eq_true, Bool.and_eq_true, beq_iff_eq, decide_eq_true_eq] at h hc
  casesm* _ ∨ _, _ ∧ _
  all_goals first
    | (subst_vars; simp_all)
    | (rename_i h1 h2 h3 h4; exact absurd (le_trans h3 h2) (by decide))

lemma sep_not_space {c : Char} (h : isSepChar c = false) : isPySpace c = false := by
  unfold isSepChar at h
  simp only [Bool.or_eq_false_iff] at h
  exact h.2

lemma dropWhile_cons_of_neg {p : Char → Bool} {x : Char} {l : List Char}
    (h : p x = false) : List.dropWhile p (x :: l) = x :: l := by
  simp [List.dropWhile_cons, h]

lemma takeWhile_append_of {p : Char → Bool} (X tail : List Char)
    (hX : ∀ c ∈ X, p c = true)
    (ht : ∀ d, tail.head? = some d → p d = false) :
    (X ++ tail).takeWhile p = X := by
  induction X with
  | nil =>
      cases tail with
      | nil => rfl
      | cons d t2 => simp [List.takeWhile_cons, ht d rfl]
  | cons x xs ih =>
      simp only [List.cons_append, List.takeWhile_cons, hX x (by simp), if_true]
      rw [ih (fun c hc => hX c (by simp [hc]))]

lemma pyStrip_eq_self {X : List Char}
    (h1 : ∀ d, X.head? = some d → isPySpace d = false)
    (h2 : ∀ d, X.reverse.head? = some d → isPySpace d = false) :
    pyStrip X = X := by
  unfold pyStrip
  have hfront : X.dropWhile isPySpace = X := by
    cases X with
    | nil => rfl
    | cons x xs => exact dropWhile_cons_of_neg (h1 x rfl)
  rw [hfront]
  have hback : X.reverse.dropWhile isPySpace = X.reverse := by
    cases hR : X.reverse with
    | nil => rfl
    | cons y ys => exact dropWhile_cons_of_neg (h2 y (by rw [hR]; rfl))
  rw [hback, List.reverse_reverse]

lemma pyStrip_ne_nil {x : Char} {X2 : List Char} (h : isPySpace x = false) :
    pyStrip (x :: X2) ≠ [] := by
  unfold pyStrip
  rw [dropWhile_cons_of_neg h]
  intro hcon
  rw [List.reverse_eq_nil_iff, List.dropWhile_eq_nil_iff] at hcon
  exact absurd (hcon x (by simp)) (by simp [h])

lemma capLine_exact (X tail : List Char) (hne : X ≠ [])
    (hX : ∀ c ∈ X, (c == '\n') = false)
    (ht : ∀ d, tail.head? = some d → d = '\n') :
    capLine (X ++ tail) = some X := by
  unfold capLine
  have h : (X ++ tail).takeWhile (fun c => !(c == '\n')) = X := by
    refine takeWhile_append_of X tail (fun c hc => by simp [hX c hc]) ?_
    intro d hd
    simp [ht d hd]
  rw [h]
  cases X with
  | nil => exact absurd rfl hne
  | cons x xs => rfl

lemma capRef_exact (X tail : List Char) (hne : X ≠ [])
    (hX : ∀ c ∈ X, isRefChar c = true)
    (ht : ∀ d, tail.head? = some d → isRefChar d = false) :
    capRef (X ++ tail) = some X := by
  unfold capRef
  rw [takeWhile_append_of X tail hX ht]
  cases X with
  | nil => exact absurd rfl hne
  | cons x xs => rfl

lemma sepCap_nonsep (cap : List Char → Option (List Char)) (k : Nat)
    {c : Char} (cs : List Char) (h : isSepChar c = false) :
    sepCap cap k (c :: cs) = cap (c :: cs) := by
  cases k with
  | zero => rfl
  | succ m => simp [sepCap, h]

lemma sepCap_sep (cap : List Char → Option (List Char)) (k : Nat)
    {c : Char} (cs : List Char) (h : isSepChar c = true) :
    sepCap cap (k + 1) (c :: cs) = ((sepCap cap k cs) <|> cap (c :: cs)) := by
  simp [sepCap, h]

lemma searchAt_of_match {m : Option Char → List Char → Option (List Char)}
    {prev : Option Char} {s : List Char} {r : List Char}
    (h : m prev s = some r) : searchAt m prev s = some r := by
  unfold searchAt
  rw [h]
  rfl

lemma searchAt_cons (m : Option Char → List Char → Option (List Char))
    (prev : Option Char) (c : Char) (cs : List Char) :
    searchAt m prev (c :: cs) = ((m prev (c :: cs)) <|> searchAt m (some c) cs) := rfl

lemma searchAt_append {m : Option Char → List Char → Option (List Char)}
    (a b : List Char) (prev : Option Char)
    (h : noneUpTo m prev a b = true) :
    searchAt m prev (a ++ b) = searchAt m (prevAfter prev a) b := by
  induction a generalizing prev with
  | nil => rfl
  | cons c a2 ih =>
      unfold noneUpTo at h
      rw [Bool.and_eq_true] at h
      have h1 : m prev (c :: (a2 ++ b)) = none := by
        rw [← Option.isNone_iff_eq_none]
        exact h.1
      rw [show ((c :: a2) ++ b) = c :: (a2 ++ b) from rfl, searchAt_cons, h1,
          Option.none_orElse, ih (some c) h.2]
      rfl

lemma matchTitleAt_label (prev : Option Char) (x : Char) (X2 tail : List Char)
    (hbol : isBol prev = true)
    (hsep : isSepChar x = false)
    (hnl : ∀ c ∈ (x :: X2), (c == '\n') = false)
    (ht : ∀ d, tail.head? = some d → d = '\n') :
    matchTitleAt prev ("Tender Title: ".toList ++ ((x :: X2) ++ tail)) = some (x :: X2) := by
  have hcap : capLine (x :: (X2 ++ tail)) = some (x :: X2) := by
    have h := capLine_exact (x :: X2) tail (by simp) hnl ht
    simpa using h
  have h3 : sepCap capLine 3 (x :: (X2 ++ tail)) = some (x :: X2) := by
    rw [sepCap_nonsep capLine 3 (X2 ++ tail) hsep, hcap]
  have h4 : sepCap capLine 4 (' ' :: x :: (X2 ++ tail)) = some (x :: X2) := by
    rw [sepCap_sep capLine 3 (x :: (X2 ++ tail)) (by decide), h3]
    rfl
  have h5 : sepCap capLine 5 (':' :: ' ' :: x :: (X2 ++ tail)) = some (x :: X2) := by
    rw [sepCap_sep capLine 4 (' ' :: x :: (X2 ++ tail)) (by decide), h4]
    rfl
  have hp : prev = none ∨ prev = some '\n' := by
    cases prev with
    | none => exact Or.inl rfl
    | some c =>
        right
        unfold isBol at hbol
        rw [beq_iff_eq] at hbol
        rw [hbol]
  rcases hp with rfl | rfl
  · have key : matchTitleAt none ("Tender Title: ".toList ++ ((x :: X2) ++ tail)) =
        ((sepCap capLine 5 (':' :: ' ' :: x :: (X2 ++ tail)) <|>
          sepCap capLine 5 (' ' :: 'T' :: 'i' :: 't' :: 'l' :: 'e' :: ':' :: ' ' :: x ::
            (X2 ++ tail))) <|> (none <|> none)) := rfl
    rw [key, h5]
    rfl
  · have key : matchTitleAt (some '\n') ("Tender Title: ".toList ++ ((x :: X2) ++ tail)) =
        ((sepCap capLine 5 (':' :: ' ' :: x :: (X2 ++ tail)) <|>
          sepCap capLine 5 (' ' :: 'T' :: 'i' :: 't' :: 'l' :: 'e' :: ':' :: ' ' :: x ::
            (X2 ++ tail))) <|> (none <|> none)) := rfl
    rw [key, h5]
    rfl

lemma matchRefAt_label (prev : Option Char) (x : Char) (X2 tail : List Char)
    (hsep : isSepChar x = false)
    (href : ∀ c ∈ (x :: X2), isRefChar c = true)
    (ht : ∀ d, tail.head? = some d → isRefChar d = false) :
    matchRefAt prev ("Reference: ".toList ++ ((x :: X2) ++ tail)) = some (x :: X2) := by
  have hcap : capRef (x :: (X2 ++ tail)) = some (x :: X2) := by
    have h := capRef_exact (x :: X2) tail (by simp) href ht
    simpa using h
  have h3 : sepCap capRef 3 (x :: (X2 ++ tail)) = some (x :: X2) := by
    rw [sepCap_nonsep capRef 3 (X2 ++ tail) hsep, hcap]
  have h4 : sepCap capRef 4 (' ' :: x :: (X2 ++ tail)) = some (x :: X2) := by
    rw [sepCap_sep capRef 3 (x :: (X2 ++ tail)) (by decide), h3]
    rfl
  have h5 : sepCap capRef 5 (':' :: ' ' :: x :: (X2 ++ tail)) = some (x :: X2) := by
    rw [sepCap_sep capRef 4 (' ' :: x :: (X2 ++ tail)) (by decide), h4]
    rfl
  have key : matchRefAt prev ("Reference: ".toList ++ ((x :: X2) ++ tail)) =
      (sepCap capRef 5 (':' :: ' ' :: x :: (X2 ++ tail)) <|>
       (some ['e', 'r', 'e', 'n', 'c', 'e'] <|> (none <|> none))) := rfl
  rw [key, h5]
  rfl

lemma fallbackTitle_eq_find (lines : List (List Char)) :
    fallbackTitle lines =
      (lines.map pyStrip).find? (fun s => decide (10 < s.length) && firstUpper s) := by
  induction lines with
  | nil => rfl
  | cons l rest ih =>
      rw [List.map_cons]
      have hL : fallbackTitle (l :: rest) =
          (match pyStrip l with
           | [] => fallbackTitle rest
           | c :: cs =>
              if 10 < (c :: cs).length && ('A' ≤ c && c ≤ 'Z') then some (c :: cs)
              else fallbackTitle rest) := rfl
      rw [hL]
      cases hs : pyStrip l with
      | nil =>
          rw [List.find?_cons_of_neg _ (by simp [firstUpper])]
          exact ih
      | cons c cs =>
          have hmatch : (match c :: cs with
              | [] => fallbackTitle rest
              | c :: cs =>
                 if 10 < (c :: cs).length && ('A' ≤ c && c ≤ 'Z') then some (c :: cs)
                 else fallbackTitle rest) =
              (if (decide (10 < (c :: cs).length) && firstUpper (c :: cs)) = true
               then some (c :: cs)
               else fallbackTitle rest) := rfl
          rw [hmatch]
          have hfind : List.find? (fun s => decide (10 < s.length) && firstUpper s)
              ((c :: cs) :: List.map pyStrip rest) =
              (match (decide (10 < (c :: cs).length) && firstUpper (c :: cs)) with
               | true => some (c :: cs)
               | false => List.find? (fun s => decide (10 < s.length) && firstUpper s)
                   (List.map pyStrip rest)) := rfl
          rw [hfind]
          cases hb : (decide (10 < (c :: cs).length) && firstUpper (c :: cs)) with
          | true => simp
          | false => simpa using ih

lemma getField_title (dp : Option (List Char → Option (List Char))) (text : List Char) :
    getField (parse_tender_text dp text) "title".toList =
      (if truthy (first_match matchTitleAt (fullView text))
       then first_match matchTitleAt (fullView text)
       else
         match fallbackTitle (splitlines text) with
         | some s => some s
         | none => first_match matchTitleAt (fullView text)) := rfl

lemma getField_ref (dp : Option (List Char → Option (List Char))) (text : List Char) :
    getField (parse_tender_text dp text) "reference".toList =
      first_match matchRefAt (fullView text) := rfl

lemma getField_closing (dp : Option (List Char → Option (List Char))) (text : List Char) :
    getField (parse_tender_text dp text) "closing_date".toList =
      normalize_date dp (first_match matchDateAt (fullView text)) := rfl

lemma normalize_date_unavail {s : List Char} (h : s ≠ []) :
    normalize_date none (some s) = some s := by
  cases s with
  | nil => exact absurd rfl h
  | cons c cs => rfl

lemma normalize_date_parse_ok {f : List Char → Option (List Char)} {s iso : List Char}
    (h : s ≠ []) (hf : f s = some iso) :
    normalize_date (some f) (some s) = some iso := by
  cases s with
  | nil => exact absurd rfl h
  | cons c cs =>
      have key : normalize_date (some f) (some (c :: cs)) =
          (match f (c :: cs) with
           | some iso => some iso
           | none => some (c :: cs)) := rfl
      rw [key, hf]

lemma normalize_date_parse_fail {f : List Char → Option (List Char)} {s : List Char}
    (h : s ≠ []) (hf : f s = none) :
    normalize_date (some f) (some s) = some s := by
  cases s with
  | nil => exact absurd rfl h
  | cons c cs =>
      have key : normalize_date (some f) (some (c :: cs)) =
          (match f (c :: cs) with
           | some iso => some iso
           | none => some (c :: cs)) := rfl
      rw [key, hf]

lemma extractPages_no_ocr_force (dpi : Nat) (doc : List Page) :
    extractPages false true dpi doc = .ok (List.replicate doc.length []) := by
  induction doc with
  | nil => rfl
  | cons p rest ih =>
      have key : extractPages false true dpi (p :: rest) =
          (extractPages false true dpi rest).map (([] : List Char) :: ·) := rfl
      rw [key, ih]
      simp [Except.map, List.replicate_succ]

lemma intercalate_replicate_nil (n : Nat) :
    List.intercalate ['\n'] (List.replicate n ([] : List Char)) =
      List.replicate (n - 1) '\n' := by
  induction n with
  | zero => rfl
  | succ m ih =>
      cases m with
      | zero => rfl
      | succ k =>
          have key : List.intercalate ['\n'] (List.replicate (k + 2) ([] : List Char)) =
              '\n' :: List.intercalate ['\n'] (List.replicate (k + 1) ([] : List Char)) := rfl
          rw [key, ih]
          simp [List.replicate_succ]

lemma mem_of_reverse_head {l : List Char} {d : Char}
    (hd : l.reverse.head? = some d) : d ∈ l := by
  cases hrev : l.reverse with
  | nil => rw [hrev] at hd; cases hd
  | cons y ys =>
      rw [hrev, List.head?_cons] at hd
      injection hd with hyd
      have hmem : d ∈ l.reverse := by
        rw [hrev, hyd]
        exact List.mem_cons_self d ys
      exact List.mem_reverse.mp hmem

/-! ### Claim theorems -/

set_option maxRecDepth 100000 in
/-- C1.  On the four-line sample input, `parse_tender_text` yields
title `Construction of New Bridge`, reference `TB-2025-00123`,
organization `City Public Works Department`, and a closing date that
is the raw captured string `30 September 2025` when the date-parsing
capability is unavailable, and the parser's ISO-8601 rendering of that
string when it is available (for `dateutil`, an ISO string containing
`2025-09-30`). -/
theorem claim1_sample_parse (dp : Option (List Char → Option (List Char))) :
    getField (parse_tender_text dp sampleTender) (("title").toList) =
        some (("Construction of New Bridge").toList) ∧
    getField (parse_tender_text dp sampleTender) (("reference").toList) =
        some (("TB-2025-00123").toList) ∧
    getField (parse_tender_text dp sampleTender) (("organization").toList) =
        some (("City Public Works Department").toList) ∧
    (dp = none →
      getField (parse_tender_text dp sampleTender) (("closing_date").toList) =
        some (("30 September 2025").toList)) ∧
    (∀ (f : List Char → Option (List Char)) (iso : List Char),
      dp = some f → f (("30 September 2025").toList) = some iso →
      getField (parse_tender_text dp sampleTender) (("closing_date").toList) = some iso) := by
  refine ⟨rfl, rfl, rfl, ?_, ?_⟩
  · rintro rfl
    rfl
  · rintro f iso rfl hf
    rw [getField_closing]
    have hdate : first_match matchDateAt (fullView sampleTender) =
        some (("30 September 2025").toList) := rfl
    rw [hdate]
    exact normalize_date_parse_ok (by decide) hf

/-- C1, witness: the theorem applied with the capability absent and
with a parser that renders the sample date to an ISO string. -/
theorem claim1_sample_parse_inst :
    getField (parse_tender_text none sampleTender) (("title").toList) =
        some (("Construction of New Bridge").toList) ∧
    getField (parse_tender_text none sampleTender) (("closing_date").toList) =
        some (("30 September 2025").toList) ∧
    getField (parse_tender_text (some (fun _ => some (("2025-09-30T00:00:00").toList)))
        sampleTender) (("closing_date").toList) =
      some (("2025-09-30T00:00:00").toList) :=
  ⟨(claim1_sample_parse none).1,
   (claim1_sample_parse none).2.2.2.1 rfl,
   (claim1_sample_parse (some (fun _ => some (("2025-09-30T00:00:00").toList)))).2.2.2.2
     (fun _ => some (("2025-09-30T00:00:00").toList)) (("2025-09-30T00:00:00").toList)
     rfl rfl⟩

/-- C5.  When no title label pattern matches anywhere in the
blank-stripped view, the title is the first line (in original order)
whose stripped form is longer than 10 characters and begins with an
upper-case character, taken in stripped form; if no such line exists
the title is null (`find?` returns `none`). -/
theorem claim5_title_fallback (dp : Option (List Char → Option (List Char)))
    (text : List Char)
    (h : first_match matchTitleAt (fullView text) = none) :
    getField (parse_tender_text dp text) (("title").toList) =
      ((splitlines text).map pyStrip).find?
        (fun s => decide (10 < s.length) && firstUpper s) := by
  rw [getField_title, h]
  rw [show truthy none = false from rfl]
  rw [if_neg (by simp)]
  rw [fallbackTitle_eq_find]
  cases hfind : ((splitlines text).map pyStrip).find?
      (fun s => decide (10 < s.length) && firstUpper s) with
  | none => rfl
  | some s => rfl

/-- C5, witness: no title label matches, and the fallback picks the
first sufficiently long capitalised line. -/
theorem claim5_title_fallback_inst :
    first_match matchTitleAt (fullView (("by the river\nAbcdefghijklm").toList)) = none ∧
    getField (parse_tender_text none (("by the river\nAbcdefghijklm").toList))
        (("title").toList) = some (("Abcdefghijklm").toList) := by
  refine ⟨by decide, ?_⟩
  rw [claim5_title_fallback none (("by the river\nAbcdefghijklm").toList) (by decide)]
  decide

/-- C2, counterexample.  The claim quantifies over every text
containing a line `Tender Title: X`; but the title pattern also
matches `Project ...` lines (and bare `Tender`/`Title` labels), and
`re.search` keeps the first match in text order, so an earlier
`Project Alpha` line wins over the labelled `Tender Title: Bridge`
line. -/
theorem claim2_counterexample :
    getField (parse_tender_text none
        (("Project Alpha\nTender Title: Bridge").toList)) (("title").toList) ≠
      some (("Bridge").toList) ∧
    getField (parse_tender_text none
        (("Project Alpha\nTender Title: Bridge").toList)) (("title").toList) =
      some (("Alpha").toList) := ⟨by decide, rfl⟩

/-- C2, amended.  For every text whose blank-stripped view contains a
line `Tender Title: X` — with X non-empty, free of newlines, not
beginning with a separator character (colon, dash or whitespace), and
such that no match of the title pattern starts earlier in the view —
`parse_tender_text` returns title `X` trimmed of surrounding
whitespace. -/
theorem claim2_amended_title_label (dp : Option (List Char → Option (List Char)))
    (text A X tail : List Char)
    (hfull : fullView text = A ++ ((("Tender Title: ").toList) ++ (X ++ tail)))
    (hbol : isBol (prevAfter none A) = true)
    (hno : noneUpTo matchTitleAt none A ((("Tender Title: ").toList) ++ (X ++ tail)) = true)
    (hne : X ≠ [])
    (hsep : isSepChar (X.headD ' ') = false)
    (hnl : ∀ c ∈ X, (c == '\n') = false)
    (ht : ∀ d, tail.head? = some d → d = '\n') :
    getField (parse_tender_text dp text) (("title").toList) = some (pyStrip X) := by
  obtain ⟨x, X2, rfl⟩ : ∃ x X2, X = x :: X2 := by
    cases X with
    | nil => exact absurd rfl hne
    | cons x X2 => exact ⟨x, X2, rfl⟩
  have hsep2 : isSepChar x = false := hsep
  have hm : matchTitleAt (prevAfter none A)
      ((("Tender Title: ").toList) ++ ((x :: X2) ++ tail)) = some (x :: X2) :=
    matchTitleAt_label _ x X2 tail hbol hsep2 hnl ht
  have hsearch : searchAt matchTitleAt none (fullView text) = some (x :: X2) := by
    rw [hfull, searchAt_append A _ none hno]
    exact searchAt_of_match hm
  have hfm : first_match matchTitleAt (fullView text) = some (pyStrip (x :: X2)) := by
    unfold first_match
    rw [hsearch]
    rfl
  rw [getField_title, hfm]
  have hnn : pyStrip (x :: X2) ≠ [] := pyStrip_ne_nil (sep_not_space hsep2)
  have hie : (pyStrip (x :: X2)).isEmpty = false := by
    cases hq : pyStrip (x :: X2) with
    | nil => exact absurd hq hnn
    | cons a b => rfl
  have htr : truthy (some (pyStrip (x :: X2))) = true := by
    show (!(pyStrip (x :: X2)).isEmpty) = true
    rw [hie]
    rfl
  rw [if_pos htr]

/-- C2, witness for the amended theorem: a single labelled line. -/
theorem claim2_amended_title_label_inst :
    fullView (("Tender Title: Riverside Bridge Phase 2").toList) =
      [] ++ ((("Tender Title: ").toList) ++
        ((("Riverside Bridge Phase 2").toList) ++ [])) ∧
    getField (parse_tender_text none (("Tender Title: Riverside Bridge Phase 2").toList))
        (("title").toList) = some (pyStrip (("Riverside Bridge Phase 2").toList)) := by
  refine ⟨by decide, ?_⟩
  exact claim2_amended_title_label none (("Tender Title: Riverside Bridge Phase 2").toList)
    [] (("Riverside Bridge Phase 2").toList) [] (by decide) (by decide) (by decide)
    (by decide) (by decide) (by decide) (by intro d hd; cases hd)

/-- C3, counterexample.  The claim quantifies over every text
containing `Reference: X`; but the reference pattern also matches the
shorter label `Ref`, and `re.search` keeps the first match in text
order, so an earlier `Ref: AAA` wins over `Reference: TB-1`. -/
theorem claim3_counterexample :
    getField (parse_tender_text none (("Ref: AAA\nReference: TB-1").toList))
        (("reference").toList) ≠ some (("TB-1").toList) ∧
    getField (parse_tender_text none (("Ref: AAA\nReference: TB-1").toList))
        (("reference").toList) = some (("AAA").toList) := ⟨by decide, rfl⟩

/-- C3, amended.  For every text whose blank-stripped view contains
`Reference: X` — with X a non-empty string over the class
`[A-Z0-9\-_/]` (case-insensitively), not beginning with `-`, maximal
(not followed immediately by another class character), and such that
no match of the reference pattern starts earlier in the view —
`parse_tender_text` returns reference `X`. -/
theorem claim3_amended_reference_label (dp : Option (List Char → Option (List Char)))
    (text A X tail : List Char)
    (hfull : fullView text = A ++ ((("Reference: ").toList) ++ (X ++ tail)))
    (hno : noneUpTo matchRefAt none A ((("Reference: ").toList) ++ (X ++ tail)) = true)
    (hne : X ≠ [])
    (href : ∀ c ∈ X, isRefChar c = true)
    (hdash : X.headD ' ' ≠ '-')
    (ht : ∀ d, tail.head? = some d → isRefChar d = false) :
    getField (parse_tender_text dp text) (("reference").toList) = some X := by
  obtain ⟨x, X2, rfl⟩ : ∃ x X2, X = x :: X2 := by
    cases X with
    | nil => exact absurd rfl hne
    | cons x X2 => exact ⟨x, X2, rfl⟩
  have hxref : isRefChar x = true := href x (List.mem_cons_self x X2)
  have hxs : isPySpace x = false := refchar_not_space x hxref
  have hdash2 : x ≠ '-' := hdash
  have hcolon : (x == ':') = false := by
    rw [beq_eq_false_iff_ne]
    rintro rfl
    exact absurd hxref (by decide)
  have hsep : isSepChar x = false := by
    unfold isSepChar
    rw [hcolon, beq_eq_false_iff_ne.mpr hdash2, hxs]
    rfl
  have hm : matchRefAt (prevAfter none A)
      ((("Reference: ").toList) ++ ((x :: X2) ++ tail)) = some (x :: X2) :=
    matchRefAt_label _ x X2 tail hsep href ht
  have hsearch : searchAt matchRefAt none (fullView text) = some (x :: X2) := by
    rw [hfull, searchAt_append A _ none hno]
    exact searchAt_of_match hm
  have hstr : pyStrip (x :: X2) = x :: X2 := by
    refine pyStrip_eq_self ?_ ?_
    · intro d hd
      rw [List.head?_cons] at hd
      injection hd with hxd
      rw [← hxd]
      exact hxs
    · intro d hd
      exact refchar_not_space d (href d (mem_of_reverse_head hd))
  have hfm : first_match matchRefAt (fullView text) = some (x :: X2) := by
    unfold first_match
    rw [hsearch]
    show some (pyStrip (x :: X2)) = some (x :: X2)
    rw [hstr]
  rw [getField_ref, hfm]

/-- C3, witness for the amended theorem: a single labelled line. -/
theorem claim3_amended_reference_label_inst :
    fullView (("Reference: TB-2025/A_7").toList) =
      [] ++ ((("Reference: ").toList) ++ ((("TB-2025/A_7").toList) ++ [])) ∧
    getField (parse_tender_text none (("Reference: TB-2025/A_7").toList))
        (("reference").toList) = some (("TB-2025/A_7").toList) := by
  refine ⟨by decide, ?_⟩
  exact claim3_amended_reference_label none (("Reference: TB-2025/A_7").toList)
    [] (("TB-2025/A_7").toList) [] (by decide) (by decide) (by decide) (by decide)
    (by decide) (by intro d hd; cases hd)

/-- C4, counterexample.  The claim says every per-page failure during
OCR is downgraded to an empty string and never aborts the whole
extraction; but the OCR chain (`get_pixmap` / `frombytes` /
`image_to_string`) is not wrapped in `try`/`except`, so an OCR error
propagates: a one-page document with empty native text and a raising
OCR step makes `extract_text_from_pdf` raise. -/
theorem claim4_counterexample :
    extract_text_from_pdf true true true
      [⟨.ok [], fun _ => .error (("ocr failed").toList)⟩] false 200 =
      .error (("ocr failed").toList) := rfl

/-- C4, amended.  A per-page failure of native text retrieval
(`page.get_text` raising) is downgraded to empty native text for that
page only: extraction of the whole document behaves exactly as if that
page had returned no text.  (Errors of the OCR step itself, by
contrast, are not caught and abort the extraction, as the
counterexample shows.) -/
theorem claim4_amended_get_text_degrades (pt img force : Bool) (dpi : Nat)
    (before after : List Page) (e : List Char)
    (ocr : Nat → Except (List Char) (List Char)) :
    extract_text_from_pdf true pt img (before ++ ⟨.error e, ocr⟩ :: after) force dpi =
      extract_text_from_pdf true pt img (before ++ ⟨.ok [], ocr⟩ :: after) force dpi := by
  have key : ∀ d : List Page, extract_text_from_pdf true pt img d force dpi =
      (extractPages (pt && img) force dpi d).map (List.intercalate ['\n']) := fun _ => rfl
  rw [key, key]
  have hgo : extractPages (pt && img) force dpi (before ++ ⟨.error e, ocr⟩ :: after) =
      extractPages (pt && img) force dpi (before ++ ⟨.ok [], ocr⟩ :: after) := by
    induction before with
    | nil => rfl
    | cons p ps ih =>
        simp only [List.cons_append, extractPages, List.append_eq]
        rw [ih]

  rw [hgo]

/-- C6, counterexample.  The claim says that with the date-parsing
capability unavailable `normalize_date` returns the raw captured
string unchanged; but Python's `if not date_str` treats the empty
string like `None`, so the empty raw string yields `None`, not the raw
string. -/
theorem claim6_counterexample :
    normalize_date none (some ([] : List Char)) = none ∧
    normalize_date none (some ([] : List Char)) ≠ some [] := ⟨rfl, by decide⟩

/-- C6, amended.  `normalize_date` returns null for null or empty
input; otherwise, when the date-parsing capability is unavailable or
fuzzy parsing raises, it returns the raw captured string unchanged,
and when parsing succeeds it returns the parsed timestamp rendered as
an ISO-8601 string.  Being a total function, it never raises. -/
theorem claim6_amended_normalize_date (dp : Option (List Char → Option (List Char))) :
    normalize_date dp none = none ∧
    normalize_date dp (some []) = none ∧
    (∀ s : List Char, s ≠ [] → dp = none → normalize_date dp (some s) = some s) ∧
    (∀ (s : List Char) (f : List Char → Option (List Char)),
      s ≠ [] → dp = some f → f s = none → normalize_date dp (some s) = some s) ∧
    (∀ (s iso : List Char) (f : List Char → Option (List Char)),
      s ≠ [] → dp = some f → f s = some iso → normalize_date dp (some s) = some iso) := by
  refine ⟨rfl, rfl, ?_, ?_, ?_⟩
  · intro s hs hdp
    subst hdp
    exact normalize_date_unavail hs
  · intro s f hs hdp hf
    subst hdp
    exact normalize_date_parse_fail hs hf
  · intro s iso f hs hdp hf
    subst hdp
    exact normalize_date_parse_ok hs hf

/-- C6, witness for the amended theorem: a non-empty captured string
with a succeeding parser is rendered to the parser's ISO output. -/
theorem claim6_amended_normalize_date_inst :
    normalize_date (some (fun _ => some (("2025-09-30T00:00:00").toList)))
      (some (("30 September 2025").toList)) =
      some (("2025-09-30T00:00:00").toList) :=
  (claim6_amended_normalize_date (some (fun _ => some (("2025-09-30T00:00:00").toList)))).2.2.2.2
    (("30 September 2025").toList) (("2025-09-30T00:00:00").toList) _ (by decide) rfl rfl

/-- C7.  The CLI exits with status 0 on success; any exception raised
by extraction or parsing is caught once at the top level, printed to
stderr prefixed with `Error: `, and causes exit status 1 with nothing
written to stdout. -/
theorem claim7_cli_exit (jsonFlag : Bool) (render : AnalysisResult → List Char)
    (r : AnalysisResult) (e : List Char) :
    (mainModel jsonFlag render (.ok r)).exitCode = 0 ∧
    (mainModel jsonFlag render (.ok r)).stderr = [] ∧
    mainModel jsonFlag render (.error e) = ⟨1, [], [("Error: ").toList ++ e]⟩ := by
  refine ⟨?_, ?_, rfl⟩ <;> cases jsonFlag <;> rfl

/-- C8.  `parse_tender_text` is deterministic: two applications to the
same input text (with the same external date parser) yield identical
records.  In this pure embedding the result depends only on the
arguments. -/
theorem claim8_parse_deterministic (dp : Option (List Char → Option (List Char)))
    (t1 t2 : List Char) (h : t1 = t2) :
    parse_tender_text dp t1 = parse_tender_text dp t2 := by rw [h]

/-- C8, witness. -/
theorem claim8_parse_deterministic_inst :
    parse_tender_text none (("Tender Title: Sample Road Works").toList) =
      parse_tender_text none (("Tender Title: Sample Road Works").toList) :=
  claim8_parse_deterministic none _ _ rfl

/-- C9.  For every input string and any state of the date-parsing
capability, `parse_tender_text` (a total function: it terminates and
never raises) returns a record with exactly the four keys `title`,
`reference`, `organization`, `closing_date`, in that fixed order, each
value being an optional string. -/
theorem claim9_parse_shape (dp : Option (List Char → Option (List Char))) (text : List Char) :
    (parse_tender_text dp text).map Prod.fst =
      [("title").toList, ("reference").toList, ("organization").toList,
       ("closing_date").toList] := rfl

/-- C10.  With the PDF library available but the OCR capability
unavailable (`pytesseract` or `Image` missing) and force-OCR set,
every page contributes the empty string, so an `n`-page document
yields exactly `n - 1` newline characters. -/
theorem claim10_extract_no_ocr (pt img : Bool) (doc : List Page) (dpi : Nat)
    (h : (pt && img) = false) :
    extract_text_from_pdf true pt img doc true dpi =
      .ok (List.replicate (doc.length - 1) '\n') := by
  have key : extract_text_from_pdf true pt img doc true dpi =
      (extractPages (pt && img) true dpi doc).map (List.intercalate ['\n']) := rfl
  rw [key, h, extractPages_no_ocr_force]
  simp [Except.map, intercalate_replicate_nil]

/-- C10, witness: a two-page document with OCR unavailable and
force-OCR yields a single newline. -/
theorem claim10_extract_no_ocr_inst :
    (false && false) = false ∧
    extract_text_from_pdf true false false
      [⟨.ok (("embedded text").toList), fun _ => .ok []⟩,
       ⟨.ok [], fun _ => .error (("ocr broke").toList)⟩] true 200 =
      .ok (List.replicate 1 '\n') :=
  ⟨rfl, claim10_extract_no_ocr false false _ 200 rfl⟩

end TenderVista
